import Mathlib

/-!
Verification of the Serena-MCP context-aggregation engine
(`src/serena_mcp/{cache_manager,context_manager,lsp_client}.py`) against its
natural-language specification.  The Python code is shallowly embedded:

* JSON payload values become the mutual inductive `Json`; Python's
  `json.dumps` / `json.loads` become `dumps` / `loads` (integers, strings,
  booleans, null, arrays and objects; floats and codepoints above the basic
  multilingual plane are outside the model, so `loads` answers `none` there,
  matching the claims' restriction to round-trippable payloads).
* `cachetools.TTLCache` (as instantiated by `CacheManager.__init__` with
  `getsizeof` = UTF-8 byte length) becomes `TTLCacheState` together with
  `cacheExpire` / `cacheSetItem` / `cacheGetItem`; time is an explicit `now`
  argument.
* The filesystem, the language-server answers and the `tiktoken` encoder are
  inputs of the aggregator in the source (`os.walk`, `self.lsp_client`,
  `self.encoder`); they are bundled into the explicit environment `CtxEnv`.
* The blocking JSON-RPC read loop of `LSPServerProcess._request` becomes a
  scan over an explicit inbound message list.
-/

namespace SerenaMCP

/-! ## JSON values (the payload dictionaries of the Python code) -/

mutual

inductive Json where
  | null
  | bool (b : Bool)
  | num (n : Int)
  | str (s : String)
  | arr (xs : JsonList)
  | obj (kvs : JsonObj)
deriving DecidableEq

inductive JsonList where
  | nil
  | cons (hd : Json) (tl : JsonList)
deriving DecidableEq

inductive JsonObj where
  | nil
  | cons (key : String) (val : Json) (tl : JsonObj)
deriving DecidableEq

end

def JsonList.ofList : List Json → JsonList
  | [] => .nil
  | x :: r => .cons x (JsonList.ofList r)

def JsonObj.ofList : List (String × Json) → JsonObj
  | [] => .nil
  | (k, v) :: r => .cons k v (JsonObj.ofList r)

def Json.arrOf (xs : List Json) : Json := .arr (JsonList.ofList xs)

def Json.objOf (kvs : List (String × Json)) : Json := .obj (JsonObj.ofList kvs)

/-- Python truthiness of a JSON value (`if cached_result:`, `if value:`):
`None`, `False`, `0`, `""`, `[]` and an empty dict are falsy. -/
def jsonTruthy : Json → Bool
  | .null => false
  | .bool b => b
  | .num n => decide (n ≠ 0)
  | .str s => !s.isEmpty
  | .arr .nil => false
  | .arr (.cons _ _) => true
  | .obj .nil => false
  | .obj (.cons _ _ _) => true

/-! ## `json.dumps` with its default separators and `ensure_ascii=True` -/

def hexDigit (n : Nat) : Char :=
  if n < 10 then Char.ofNat (48 + n) else Char.ofNat (87 + n)

def hex4 (n : Nat) : String :=
  String.mk [hexDigit (n / 4096 % 16), hexDigit (n / 256 % 16),
             hexDigit (n / 16 % 16), hexDigit (n % 16)]

/-- One character of `json.dumps` output: the two-character escapes of the
encoder, and `\uXXXX` for the remaining characters outside `0x20`-`0x7e`. -/
def escapeChar (c : Char) : String :=
  if c = '"' then "\\\""
  else if c = '\\' then "\\\\"
  else if c = '\n' then "\\n"
  else if c = '\r' then "\\r"
  else if c = '\t' then "\\t"
  else if c.toNat = 8 then "\\b"
  else if c.toNat = 12 then "\\f"
  else if c.toNat < 32 || 126 < c.toNat then "\\u" ++ hex4 c.toNat
  else String.singleton c

def escapeString (s : String) : String := String.join (s.toList.map escapeChar)

def quoteStr (s : String) : String := "\"" ++ escapeString s ++ "\""

mutual

/-- `json.dumps(value)` with the default separators `", "` and `": "`. -/
def dumps : Json → String
  | .null => "null"
  | .bool b => if b then "true" else "false"
  | .num n => toString n
  | .str s => quoteStr s
  | .arr xs => "[" ++ dumpsItems xs ++ "]"
  | .obj kvs => "\x7b" ++ dumpsMembers kvs ++ "\x7d"

def dumpsItems : JsonList → String
  | .nil => ""
  | .cons x .nil => dumps x
  | .cons x (.cons y rest) => dumps x ++ ", " ++ dumpsItems (.cons y rest)

def dumpsMembers : JsonObj → String
  | .nil => ""
  | .cons k v .nil => quoteStr k ++ ": " ++ dumps v
  | .cons k v (.cons k2 v2 rest) =>
      quoteStr k ++ ": " ++ dumps v ++ ", " ++ dumpsMembers (.cons k2 v2 rest)

end

/-! ## `json.loads` (recursive-descent decoder; fuel keeps it structural) -/

def isJsonWs (c : Char) : Bool := c = ' ' || c = '\t' || c = '\n' || c = '\r'

def skipWs (cs : List Char) : List Char := cs.dropWhile isJsonWs

def hexVal (c : Char) : Option Nat :=
  if '0' ≤ c && c ≤ '9' then some (c.toNat - 48)
  else if 'a' ≤ c && c ≤ 'f' then some (c.toNat - 87)
  else if 'A' ≤ c && c ≤ 'F' then some (c.toNat - 55)
  else none

def escDecode (c : Char) : Option Char :=
  if c = '"' then some '"'
  else if c = '\\' then some '\\'
  else if c = '/' then some '/'
  else if c = 'b' then some (Char.ofNat 8)
  else if c = 'f' then some (Char.ofNat 12)
  else if c = 'n' then some '\n'
  else if c = 'r' then some '\r'
  else if c = 't' then some '\t'
  else none

def readStringChars : List Char → Option (List Char × List Char)
  | [] => none
  | c :: rest =>
    if c = '"' then some ([], rest)
    else if c = '\\' then
      match rest with
      | [] => none
      | e :: rest2 =>
        if e = 'u' then
          match rest2 with
          | a :: b :: c2 :: d :: rest3 =>
            match hexVal a, hexVal b, hexVal c2, hexVal d with
            | some ha, some hb, some hc, some hd =>
              (readStringChars rest3).map
                (fun p => (Char.ofNat (ha * 4096 + hb * 256 + hc * 16 + hd) :: p.1, p.2))
            | _, _, _, _ => none
          | _ => none
        else
          match escDecode e with
          | some d => (readStringChars rest2).map (fun p => (d :: p.1, p.2))
          | none => none
    else (readStringChars rest).map (fun p => (c :: p.1, p.2))

def digitsVal (cs : List Char) : Nat := cs.foldl (fun a c => a * 10 + (c.toNat - 48)) 0

def readNumber (cs : List Char) : Option (Json × List Char) :=
  let p := match cs with
    | c :: rest => if c = '-' then (true, rest) else (false, cs)
    | [] => (false, cs)
  let ds := p.2.takeWhile Char.isDigit
  let rest := p.2.drop ds.length
  if ds.isEmpty then none
  else
    match rest with
    | c :: _ =>
      if c = '.' || c = 'e' || c = 'E' then none
      else some (.num (if p.1 then -(digitsVal ds : Int) else (digitsVal ds : Int)), rest)
    | [] => some (.num (if p.1 then -(digitsVal ds : Int) else (digitsVal ds : Int)), [])

mutual

def readValue : Nat → List Char → Option (Json × List Char)
  | 0, _ => none
  | Nat.succ fuel, cs =>
    match skipWs cs with
    | [] => none
    | c :: rest =>
      if c = 'n' then
        if ['u', 'l', 'l'].isPrefixOf rest then some (.null, rest.drop 3) else none
      else if c = 't' then
        if ['r', 'u', 'e'].isPrefixOf rest then some (.bool true, rest.drop 3) else none
      else if c = 'f' then
        if ['a', 'l', 's', 'e'].isPrefixOf rest then some (.bool false, rest.drop 4) else none
      else if c = '"' then
        (readStringChars rest).map (fun p => (.str (String.mk p.1), p.2))
      else if c = '[' then
        match skipWs rest with
        | [] => none
        | c2 :: rest2 =>
          if c2 = ']' then some (.arr .nil, rest2)
          else (readItems fuel (c2 :: rest2)).map (fun p => (.arr p.1, p.2))
      else if c = Char.ofNat 123 then
        match skipWs rest with
        | [] => none
        | c2 :: rest2 =>
          if c2 = Char.ofNat 125 then some (.obj .nil, rest2)
          else (readMembers fuel (c2 :: rest2)).map (fun p => (.obj p.1, p.2))
      else readNumber (c :: rest)

def readItems : Nat → List Char → Option (JsonList × List Char)
  | 0, _ => none
  | Nat.succ fuel, cs =>
    match readValue fuel cs with
    | none => none
    | some (v, rest) =>
      match skipWs rest with
      | [] => none
      | c :: rest2 =>
        if c = ',' then (readItems fuel rest2).map (fun p => (.cons v p.1, p.2))
        else if c = ']' then some (.cons v .nil, rest2)
        else none

def readMembers : Nat → List Char → Option (JsonObj × List Char)
  | 0, _ => none
  | Nat.succ fuel, cs =>
    match skipWs cs with
    | [] => none
    | c :: rest =>
      if c = '"' then
        match readStringChars rest with
        | none => none
        | some (kcs, rest2) =>
          match skipWs rest2 with
          | [] => none
          | c2 :: rest3 =>
            if c2 = ':' then
              match readValue fuel rest3 with
              | none => none
              | some (v, rest4) =>
                match skipWs rest4 with
                | [] => none
                | c3 :: rest5 =>
                  if c3 = ',' then
                    (readMembers fuel rest5).map
                      (fun p => (.cons (String.mk kcs) v p.1, p.2))
                  else if c3 = Char.ofNat 125 then
                    some (.cons (String.mk kcs) v .nil, rest5)
                  else none
            else none
      else none

end

/-- `json.loads(s)`: decode one value and insist nothing but whitespace
follows. -/
def loads (s : String) : Option Json :=
  match readValue (2 * s.length + 2) s.toList with
  | some (v, rest) => if (skipWs rest).isEmpty then some v else none
  | none => none

/-! ## `cachetools.TTLCache` as instantiated by `CacheManager.__init__`

The cache maps string keys to serialized strings.  `entries` is kept in the
order of the TTL cache's internal link list: oldest `__setitem__` first, so
`popitem` removes the head and a `set` moves/apppends its key to the tail.
Each entry carries its absolute expiry instant `now + ttl`. -/

/-- `CacheManager._get_size`: `len(value.encode("utf-8"))`. -/
def entrySize (v : String) : Nat := v.utf8ByteSize

structure TTLCacheState where
  maxsize : Nat
  ttl : Nat
  entries : List (String × String × Nat)
deriving DecidableEq

def entriesSize (es : List (String × String × Nat)) : Nat :=
  (es.map (fun e => entrySize e.2.1)).sum

/-- Aggregate tracked size (`Cache.currsize`). -/
def TTLCacheState.currsize (st : TTLCacheState) : Nat := entriesSize st.entries

/-- `TTLCache.expire(time)`: drop every entry whose expiry instant has been
reached (`link.expires <= time`). -/
def cacheExpire (st : TTLCacheState) (now : Nat) : TTLCacheState :=
  { st with entries := st.entries.filter (fun e => decide (now < e.2.2)) }

/-- The capacity-eviction loop of `Cache.__setitem__`:
`while currsize + size > maxsize: popitem()`, popping oldest-set first. -/
def evictWhile (entries : List (String × String × Nat)) (maxsize size : Nat) :
    List (String × String × Nat) :=
  match entries with
  | [] => []
  | e :: rest =>
    if maxsize < entriesSize (e :: rest) + size then evictWhile rest maxsize size
    else e :: rest

/-- `TTLCache.__setitem__(key, value)`: expire, reject a value larger than the
whole capacity (`ValueError("value too large")`, reported here as `false`),
evict until the new value fits, then (re-)insert the key at the tail of the
link order with a fresh expiry. -/
def cacheSetItem (st : TTLCacheState) (now : Nat) (key value : String) :
    Bool × TTLCacheState :=
  let st1 := cacheExpire st now
  let size := entrySize value
  if st1.maxsize < size then (false, st1)
  else
    let needEvict := match st1.entries.find? (fun e => e.1 = key) with
      | none => true
      | some e => entrySize e.2.1 < size
    let remaining := if needEvict then evictWhile st1.entries st1.maxsize size
                     else st1.entries
    (true, { st1 with
      entries := remaining.filter (fun e => e.1 ≠ key) ++ [(key, value, now + st1.ttl)] })

/-- `TTLCache.__getitem__` through `Cache.get(key)`: a present but expired
entry counts as missing (`link.expires > self.timer()` must hold). -/
def cacheGetItem (st : TTLCacheState) (now : Nat) (key : String) : Option String :=
  match st.entries.find? (fun e => e.1 = key) with
  | some e => if now < e.2.2 then some e.2.1 else none
  | none => none

namespace CacheManager

/-- `CacheManager.__init__`: capacity `CACHE_SIZE_MB` megabytes, lifetime
`CACHE_TTL_DAYS` days (both environment-sourced, defaults 512 and 14). -/
def init (cacheSizeMB ttlDays : Nat) : TTLCacheState :=
  { maxsize := cacheSizeMB * 1024 * 1024,
    ttl := ttlDays * 24 * 60 * 60,
    entries := [] }

/-- `CacheManager.set(key, value)`: serialize and store; `ValueError` from an
oversized value is caught and reported as `False`. -/
def set (st : TTLCacheState) (now : Nat) (key : String) (value : Json) :
    Bool × TTLCacheState :=
  cacheSetItem st now key (dumps value)

/-- `CacheManager.get(key)`: deserialize the stored string; a falsy stored
value or a failing `json.loads` yields `None`. -/
def get (st : TTLCacheState) (now : Nat) (key : String) : Option Json :=
  match cacheGetItem st now key with
  | some s => if s.isEmpty then none else loads s
  | none => none

/-- `CacheManager.clear()`. -/
def clear (st : TTLCacheState) : TTLCacheState := { st with entries := [] }

end CacheManager

/-! ## The aggregator's environment

`ContextManager` reads the workspace through `os.walk`/`open`/`os.path.exists`,
queries the language servers through `self.lsp_client`, counts tokens through
`self.encoder` and fingerprints requests through `hashlib.sha256`.  All four
are inputs here: `files` lists the workspace files in `os.walk` order (hidden
directories already skipped, as `_find_symbol_file` prunes them) with their
contents, and `hashFn` stands for the hex digest of SHA-256. -/

structure LspSymbol where
  name : String
  kind : Nat
  line : Nat
  detail : String
deriving DecidableEq

structure LspRef where
  uri : String
  line : Nat
deriving DecidableEq

structure CtxEnv where
  files : List (String × String)
  lspSymbols : String → List LspSymbol
  lspReferences : String → Nat → List LspRef
  countTokens : String → Nat
  hashFn : String → String

/-- `os.path.exists` restricted to the modelled workspace files. -/
def pathExists (env : CtxEnv) (p : String) : Bool := env.files.any (fun e => e.1 = p)

def lookupFile (env : CtxEnv) (p : String) : Option String :=
  (env.files.find? (fun e => e.1 = p)).map (fun e => e.2)

/-! Character-list string utilities (Python `str` methods). -/

/-- Python `c in s` for a single character. -/
def hasChar (s : String) (c : Char) : Bool := s.toList.contains c

/-- Python `s.split(sep)` for a one-character separator (empty parts kept). -/
def splitChar (sep : Char) : List Char → List (List Char)
  | [] => [[]]
  | c :: rest =>
    if c = sep then [] :: splitChar sep rest
    else
      match splitChar sep rest with
      | [] => [[c]]
      | g :: gs => (c :: g) :: gs

def splitLines (s : String) : List String := (splitChar '\n' s.toList).map String.mk

/-- Python `sep.join(parts)`. -/
def joinSep (sep : String) : List String → String
  | [] => ""
  | [x] => x
  | x :: y :: rest => x ++ sep ++ joinSep sep (y :: rest)

def strEndsWith (s suf : String) : Bool :=
  let cs := s.toList
  let sc := suf.toList
  decide (sc.length ≤ cs.length) && decide (cs.drop (cs.length - sc.length) = sc)

def strToLower (s : String) : String := String.mk (s.toList.map Char.toLower)

def replaceFuel (pat rep : List Char) : Nat → List Char → List Char
  | _, [] => []
  | 0, cs => cs
  | Nat.succ fuel, c :: rest =>
    if pat.isPrefixOf (c :: rest) then
      rep ++ replaceFuel pat rep fuel ((c :: rest).drop pat.length)
    else c :: replaceFuel pat rep fuel rest

/-- Python `s.replace(pat, rep)` for a non-empty pattern: non-overlapping,
left to right. -/
def strReplace (s pat rep : String) : String :=
  if pat.isEmpty then s
  else String.mk (replaceFuel pat.toList rep.toList s.length s.toList)

/-- `os.path.basename`. -/
def basename (p : String) : String :=
  ((splitChar '/' p.toList).map String.mk).getLastD p

def infixAt (needle : List Char) : List Char → Bool
  | [] => needle.isEmpty
  | c :: rest => needle.isPrefixOf (c :: rest) || infixAt needle rest

/-- Python's `needle in hay` on strings. -/
def strContains (hay needle : String) : Bool := infixAt needle.toList hay.toList

def isPyWs (c : Char) : Bool :=
  c = ' ' || c = '\t' || c = '\n' || c = '\r' || c = Char.ofNat 11 || c = Char.ofNat 12

def isWordChar (c : Char) : Bool := c.isAlphanum || c = '_'

/-- After a matched keyword: the regexes require at least one `\s`, then the
rest of the line with leading whitespace consumed. -/
def kwThenWs (kw : String) (cs : List Char) : Option (List Char) :=
  if kw.toList.isPrefixOf cs then
    match cs.drop kw.length with
    | c :: rest => if isPyWs c then some ((c :: rest).dropWhile isPyWs) else none
    | [] => none
  else none

/-- `re.search(rf"^\s*(class|def)\s+\x7bsymbol_name\x7d\b", content, re.MULTILINE)`
of `_find_symbol_file`, read line by line; the symbol name is assumed to be a
plain identifier (the source interpolates it into the regex unescaped). -/
def matchDefLine (name line : String) : Bool :=
  let cs := line.toList.dropWhile isPyWs
  ["class", "def"].any fun kw =>
    match kwThenWs kw cs with
    | some rest =>
      name.toList.isPrefixOf rest &&
        (match rest.drop name.length with
         | [] => true
         | c :: _ => !isWordChar c)
    | none => false

def defPatternMatches (name content : String) : Bool :=
  (splitLines content).any (matchDefLine name)

namespace ContextManager

/-- `ContextManager._find_file_in_workspace`: first walk entry whose file name
matches exactly. -/
def find_file_in_workspace (env : CtxEnv) (fileName : String) : Option String :=
  (env.files.find? (fun e => basename e.1 = fileName)).map (fun e => e.1)

/-- `ContextManager._parse_query`.  `query.split(":", 1)` becomes the span at
the first colon; `query.split(".")` becomes `splitChar`. -/
def parse_query (env : CtxEnv) (query : String) : Option String × String :=
  if hasChar query ':' then
    let filePart := String.mk (query.toList.takeWhile fun c => c ≠ ':')
    let symbolPart := String.mk ((query.toList.dropWhile fun c => c ≠ ':').drop 1)
    if pathExists env filePart then (some filePart, symbolPart)
    else
      match find_file_in_workspace env filePart with
      | some f => (some f, symbolPart)
      | none => (none, symbolPart)
  else if hasChar query '.' then
    match (splitChar '.' query.toList).map String.mk with
    | [_, m] => (none, m)
    | _ => (none, query)
  else (none, query)

/-- `ContextManager._find_symbol_file`: first `.py` file of the walk whose
content has a `class`/`def` declaration of the symbol. -/
def find_symbol_file (env : CtxEnv) (symbolName : String) : Option String :=
  (env.files.find? (fun e => strEndsWith e.1 ".py" && defPatternMatches symbolName e.2)).map
    (fun e => e.1)

/-- `ContextManager._get_symbol_kind_name`. -/
def get_symbol_kind_name (kind : Nat) : String :=
  match kind with
  | 1 => "File" | 2 => "Module" | 3 => "Namespace" | 4 => "Package"
  | 5 => "Class" | 6 => "Method" | 7 => "Property" | 8 => "Field"
  | 9 => "Constructor" | 10 => "Enum" | 11 => "Interface" | 12 => "Function"
  | 13 => "Variable" | 14 => "Constant" | 15 => "String" | 16 => "Number"
  | 17 => "Boolean" | 18 => "Array" | 19 => "Object" | 20 => "Key"
  | 21 => "Null" | 22 => "EnumMember" | 23 => "Struct" | 24 => "Event"
  | 25 => "Operator" | 26 => "TypeParameter"
  | _ => "Unknown"

/-- A formatted symbol record as produced by `_format_symbol` or the fallback
stub of `_extract_symbols`. -/
structure SymbolInfo where
  name : String
  kind : String
  locFile : String
  locLine : Nat
  documentation : String
deriving DecidableEq

/-- `ContextManager._format_symbol`. -/
def format_symbol (s : LspSymbol) (filePath : String) : SymbolInfo :=
  { name := s.name, kind := get_symbol_kind_name s.kind,
    locFile := filePath, locLine := s.line, documentation := s.detail }

/-- `ContextManager._extract_symbols`: scope-filtered LSP symbols, with a
single `"Unknown"`-kind stub when the filter is empty and the file exists. -/
def extract_symbols (env : CtxEnv) (filePath symbolName scope : String) :
    List SymbolInfo :=
  let symbols := (env.lspSymbols filePath).filterMap fun s =>
    if scope = "function" then
      if strContains s.name symbolName then some (format_symbol s filePath) else none
    else if scope = "class" then
      if s.kind = 5 || strContains s.name symbolName then some (format_symbol s filePath)
      else none
    else if scope = "file" then some (format_symbol s filePath)
    else none
  if symbols.isEmpty && pathExists env filePath then
    [{ name := symbolName, kind := "Unknown", locFile := filePath, locLine := 1,
       documentation := "Symbol " ++ symbolName ++ " in " ++ basename filePath }]
  else symbols

structure DepRecord where
  module : String
  summary : String
deriving DecidableEq

/-- One line against `^\s*(?:from\s+(\S+)\s+)?import\s+(.+)$`, returning the
module name (`group(1) or group(2).split()[0]`).  An import line whose tail is
only whitespace makes the source raise `IndexError` (aborting that file's
scan); such a line is treated as a non-match here. -/
def importModuleOfLine (line : String) : Option String :=
  let cs := line.toList.dropWhile isPyWs
  match kwThenWs "from" cs with
  | some afterFrom =>
    let modCs := afterFrom.takeWhile (fun c => !isPyWs c)
    let rest := afterFrom.drop modCs.length
    if modCs.isEmpty then none
    else
      match kwThenWs "import" (rest.dropWhile isPyWs) with
      | some afterImport => if afterImport.isEmpty then none else some (String.mk modCs)
      | none => none
  | none =>
    match kwThenWs "import" cs with
    | some afterImport =>
      let w := afterImport.takeWhile (fun c => !isPyWs c)
      if w.isEmpty then none else some (String.mk w)
    | none => none

/-- `ContextManager._extract_dependencies`: scan each symbol's file for import
lines, deduplicating by module name across all symbols (first occurrence
wins). -/
def extract_dependencies (env : CtxEnv) (symbols : List SymbolInfo) :
    List DepRecord :=
  symbols.foldl (fun acc s =>
    match lookupFile env s.locFile with
    | none => acc
    | some content =>
      (splitLines content).foldl (fun acc2 line =>
        match importModuleOfLine line with
        | some m =>
          if m.isEmpty || (acc2.map DepRecord.module).contains m then acc2
          else acc2 ++ [{ module := m, summary := "Imported by " ++ basename s.locFile }]
        | none => acc2) acc) []

structure RefRecord where
  file : String
  line : Nat
  context : String
deriving DecidableEq

/-- The per-symbol body of `_extract_references`: the first 5 raw references,
then those with a non-empty file different from the symbol's own file. -/
def refs_for_symbol (env : CtxEnv) (s : SymbolInfo) : List RefRecord :=
  ((env.lspReferences s.locFile s.locLine).take 5).filterMap fun r =>
    let refFile := strReplace r.uri "file://" ""
    if !refFile.isEmpty && refFile ≠ s.locFile then
      some { file := refFile, line := r.line, context := "Reference to " ++ s.name }
    else none

/-- `ContextManager._extract_references`. -/
def extract_references (env : CtxEnv) (symbols : List SymbolInfo) : List RefRecord :=
  symbols.flatMap (refs_for_symbol env)

/-- `ContextManager._estimate_raw_tokens`. -/
def estimate_raw_tokens (env : CtxEnv) (filePath scope : String) : Nat :=
  match lookupFile env filePath with
  | none => 0
  | some content =>
    if scope = "function" then 500
    else if scope = "class" then 2000
    else env.countTokens content

/-! Python `str(...)` of the context dictionary, as fed to the token encoder
by `_count_tokens`: single-quoted strings (their own quoting corner cases are
not needed by any claim — the encoder is abstract in `CtxEnv` anyway). -/

def pyStr (s : String) : String := "\x27" ++ s ++ "\x27"

def pyReprList (items : List String) : String :=
  "[" ++ String.intercalate ", " items ++ "]"

def pyReprSymbol (s : SymbolInfo) : String :=
  "\x7b\x27name\x27: " ++ pyStr s.name ++ ", \x27kind\x27: " ++ pyStr s.kind ++
    ", \x27location\x27: \x7b\x27file\x27: " ++ pyStr s.locFile ++
    ", \x27line\x27: " ++ toString s.locLine ++ "\x7d, \x27documentation\x27: " ++
    pyStr s.documentation ++ "\x7d"

def pyReprDep (d : DepRecord) : String :=
  "\x7b\x27module\x27: " ++ pyStr d.module ++ ", \x27summary\x27: " ++
    pyStr d.summary ++ "\x7d"

def pyReprRef (r : RefRecord) : String :=
  "\x7b\x27file\x27: " ++ pyStr r.file ++ ", \x27line\x27: " ++ toString r.line ++
    ", \x27context\x27: " ++ pyStr r.context ++ "\x7d"

def pyReprContext (symbols : List SymbolInfo) (dependencies : List DepRecord)
    (references : List RefRecord) : String :=
  "\x7b\x27symbols\x27: " ++ pyReprList (symbols.map pyReprSymbol) ++
    ", \x27dependencies\x27: " ++ pyReprList (dependencies.map pyReprDep) ++
    ", \x27references\x27: " ++ pyReprList (references.map pyReprRef) ++ "\x7d"

/-- `ContextManager._count_tokens`: encoder length of the stringified context. -/
def count_tokens (env : CtxEnv) (symbols : List SymbolInfo)
    (dependencies : List DepRecord) (references : List RefRecord) : Nat :=
  env.countTokens (pyReprContext symbols dependencies references)

/-- The result dictionary assembled by `get_context`. -/
structure Payload where
  symbols : List SymbolInfo
  dependencies : List DepRecord
  references : List RefRecord
  tokensSaved : Int
deriving DecidableEq

def symbolToJson (s : SymbolInfo) : Json :=
  Json.objOf [("name", .str s.name), ("kind", .str s.kind),
    ("location", Json.objOf [("file", .str s.locFile), ("line", .num s.locLine)]),
    ("documentation", .str s.documentation)]

def depToJson (d : DepRecord) : Json :=
  Json.objOf [("module", .str d.module), ("summary", .str d.summary)]

def refToJson (r : RefRecord) : Json :=
  Json.objOf [("file", .str r.file), ("line", .num r.line),
    ("context", .str r.context)]

def payloadToJson (p : Payload) : Json :=
  Json.objOf [("symbols", Json.arrOf (p.symbols.map symbolToJson)),
    ("dependencies", Json.arrOf (p.dependencies.map depToJson)),
    ("references", Json.arrOf (p.references.map refToJson)),
    ("tokens_saved", .num p.tokensSaved)]

/-- `ContextManager._empty_result`. -/
def empty_result : Payload :=
  { symbols := [], dependencies := [], references := [], tokensSaved := 0 }

/-- `ContextManager._generate_cache_key`: a hash of
`f"\x7bquery\x7d:\x7bscope\x7d:\x7bmax_tokens\x7d"`. -/
def generate_cache_key (env : CtxEnv) (query scope : String) (maxTokens : Nat) :
    String :=
  env.hashFn (query ++ ":" ++ scope ++ ":" ++ toString maxTokens)

/-- File resolution of `get_context`: the parsed file, else the workspace scan
for the symbol. -/
def resolve_file (env : CtxEnv) (query : String) : Option String × String :=
  match parse_query env query with
  | (some f, sym) => (some f, sym)
  | (none, sym) => (find_symbol_file env sym, sym)

/-- The cache-miss computation of `get_context` (everything between the cache
lookup and `cache.set`); `none` models the early `_empty_result` return when
no file could be resolved. -/
def compute_context (env : CtxEnv) (query scope : String) : Option Payload :=
  match resolve_file env query with
  | (none, _) => none
  | (some filePath, symbolName) =>
    let symbols := extract_symbols env filePath symbolName scope
    let dependencies := extract_dependencies env symbols
    let references := extract_references env symbols
    let rawTokens := estimate_raw_tokens env filePath scope
    let optimizedTokens := count_tokens env symbols dependencies references
    some { symbols := symbols, dependencies := dependencies,
           references := references,
           tokensSaved := max 0 ((rawTokens : Int) - (optimizedTokens : Int)) }

/-- `ContextManager.get_context`: cache lookup (a truthy cached value is
returned as-is), then the computation above; an unresolved query returns the
empty result without caching, a computed payload is cached before return. -/
def get_context (env : CtxEnv) (st : TTLCacheState) (now : Nat)
    (query scope : String) (maxTokens : Nat) : Json × TTLCacheState :=
  let key := generate_cache_key env query scope maxTokens
  let hit := match CacheManager.get st now key with
    | some j => if jsonTruthy j then some j else none
    | none => none
  match hit with
  | some j => (j, st)
  | none =>
    match compute_context env query scope with
    | none => (payloadToJson empty_result, st)
    | some p =>
      let j := payloadToJson p
      (j, (CacheManager.set st now key j).2)

structure FindSymbolResult where
  symbolName : String
  found : Bool
  message : String
  locations : List SymbolInfo
deriving DecidableEq

/-- `ContextManager.find_symbol`: the location dictionaries it builds carry
exactly the fields of a `SymbolInfo`, so they are reused as the element
type. -/
def find_symbol (env : CtxEnv) (symbolName : String) : FindSymbolResult :=
  match find_symbol_file env symbolName with
  | none =>
    { symbolName := symbolName, found := false,
      message := "Symbol \x27" ++ symbolName ++ "\x27 not found in codebase",
      locations := [] }
  | some filePath =>
    let symbols := extract_symbols env filePath symbolName "function"
    let locations := symbols.map fun s =>
      { name := s.name, kind := s.kind, locFile := s.locFile,
        locLine := s.locLine, documentation := s.documentation : SymbolInfo }
    { symbolName := symbolName, found := true,
      message := "Found " ++ toString locations.length ++ " occurrence(s) of \x27" ++
        symbolName ++ "\x27",
      locations := locations }

/-! ### `ContextManager.apply_edit` -/

/-- One edit dictionary, with the defaults `edit.get` supplies
(`type` `"replace"`, `line` `0`, `text` `""`) already applied; `line` is an
integer as in Python, so the `0 <= line` guards are meaningful. -/
structure Edit where
  type : String
  line : Int
  text : String
deriving DecidableEq

/-- Stable insertion into a descending-by-line list (strictly-greater moves
ahead, so equal lines keep their original order). -/
def insertDesc (e : Edit) : List Edit → List Edit
  | [] => [e]
  | x :: xs => if x.line < e.line then e :: x :: xs else x :: insertDesc e xs

/-- `sorted(edits, key=..., reverse=True)`: a stable descending sort. -/
def sortEditsDesc (edits : List Edit) : List Edit :=
  edits.foldl (fun acc e => insertDesc e acc) []

/-- The loop body of `apply_edit`: replace / insert / delete at a 0-based
line, counted only when the line is in range; anything else leaves the lines
and the counter untouched. -/
def applyOneEdit (acc : List String × Nat) (e : Edit) : List String × Nat :=
  if e.type = "replace" then
    if 0 ≤ e.line ∧ e.line < (acc.1.length : Int) then
      (acc.1.set e.line.toNat e.text, acc.2 + 1)
    else acc
  else if e.type = "insert" then
    if 0 ≤ e.line ∧ e.line ≤ (acc.1.length : Int) then
      (acc.1.insertIdx e.line.toNat e.text, acc.2 + 1)
    else acc
  else if e.type = "delete" then
    if 0 ≤ e.line ∧ e.line < (acc.1.length : Int) then
      (acc.1.eraseIdx e.line.toNat, acc.2 + 1)
    else acc
  else acc

/-- The in-range-and-applicable test of the loop body, for stating what the
body counts. -/
def editTakesEffect (e : Edit) (lines : List String) : Bool :=
  if e.type = "replace" then decide (0 ≤ e.line ∧ e.line < (lines.length : Int))
  else if e.type = "insert" then decide (0 ≤ e.line ∧ e.line ≤ (lines.length : Int))
  else if e.type = "delete" then decide (0 ≤ e.line ∧ e.line < (lines.length : Int))
  else false

/-- The core of `ContextManager.apply_edit` on the split line list: process
the edits in descending line order, returning the new lines and
`edits_applied`. -/
def apply_edit_lines (lines : List String) (edits : List Edit) :
    List String × Nat :=
  (sortEditsDesc edits).foldl applyOneEdit (lines, 0)

/-- `ContextManager.apply_edit` on a file of the modelled workspace: split on
newlines, apply, join; a missing file is reported with `edits_applied = 0`.
The returned string is the content written back. -/
def apply_edit (env : CtxEnv) (filePath : String) (edits : List Edit) :
    Bool × Nat × Option String :=
  match lookupFile env filePath with
  | none => (false, 0, none)
  | some content =>
    let r := apply_edit_lines (splitLines content) edits
    (true, r.2, some (joinSep "\n" r.1))

end ContextManager

/-! ## `LSPClient`: extension → language resolution and per-language sessions -/

namespace LSPClient

/-- `pathlib.PurePath(...).suffix`: the final component's extension, empty when
the only dot is leading or trailing. -/
def pathSuffix (p : String) : String :=
  let name := basename p
  let cs := name.toList
  match ((List.range cs.length).filter fun i => cs.getD i ' ' = '.').getLast? with
  | some i => if 0 < i ∧ i < cs.length - 1 then String.mk (cs.drop i) else ""
  | none => ""

def language_map : List (String × String) :=
  [(".py", "python"), (".ts", "typescript"), (".tsx", "typescript"),
   (".js", "javascript"), (".jsx", "javascript"), (".sh", "bash"),
   (".bash", "bash"), (".go", "go")]

/-- `LSPClient._get_language_from_file`. -/
def get_language_from_file (filePath : String) : String :=
  ((language_map.find? fun e => e.1 = strToLower (pathSuffix filePath)).map
    (fun e => e.2)).getD "unknown"

/-- `LSPClient.LANGUAGE_SERVERS`. -/
def language_servers : List (String × List String) :=
  [("python", ["pylsp"]), ("typescript", ["typescript-language-server", "--stdio"]),
   ("javascript", ["typescript-language-server", "--stdio"]),
   ("bash", ["bash-language-server", "start"]), ("go", ["gopls", "serve"])]

/-- The session registry: the languages whose server process is running. -/
structure ClientState where
  servers : List String
deriving DecidableEq

/-- `LSPClient._start_server`: no configured command → no session; otherwise
idempotently record the session. -/
def start_server (language : String) (st : ClientState) : ClientState :=
  if (language_servers.find? fun e => e.1 = language).isNone then st
  else if st.servers.contains language then st
  else { servers := st.servers ++ [language] }

/-- The backend answers, abstracting what a running `LSPServerProcess` would
return for the three query methods. -/
structure LspBackend where
  defn : String → Nat × Nat → Option Json
  refs : String → Nat × Nat → List LspRef
  syms : String → List LspSymbol

/-- `LSPClient.get_definition`: resolve the language, ensure the server, and
delegate only when a session exists for that language. -/
def get_definition (backend : LspBackend) (st : ClientState) (filePath : String)
    (position : Nat × Nat) : ClientState × Option Json :=
  let language := get_language_from_file filePath
  let st2 := start_server language st
  if st2.servers.contains language then (st2, backend.defn filePath position)
  else (st2, none)

/-- `LSPClient.get_references`. -/
def get_references (backend : LspBackend) (st : ClientState) (filePath : String)
    (position : Nat × Nat) : ClientState × List LspRef :=
  let language := get_language_from_file filePath
  let st2 := start_server language st
  if st2.servers.contains language then (st2, backend.refs filePath position)
  else (st2, [])

/-- `LSPClient.get_symbols`. -/
def get_symbols (backend : LspBackend) (st : ClientState) (filePath : String) :
    ClientState × List LspSymbol :=
  let language := get_language_from_file filePath
  let st2 := start_server language st
  if st2.servers.contains language then (st2, backend.syms filePath)
  else (st2, [])

end LSPClient

/-! ## The blocking read loop of `LSPServerProcess._request`

An inbound frame as the loop inspects it: its `id` (absent for notifications),
whether it carries an `"error"` member, and its `result` / error payloads. -/

structure RpcMessage where
  id : Option Nat
  hasError : Bool
  result : Json
  errorPayload : Json
deriving DecidableEq

inductive ReqOutcome where
  | ok (result : Json)
  | protocolFailure (payload : Json)
deriving DecidableEq

/-- The `while True` loop of `_request`: read frames, discarding every one
whose id differs from the caller's, until the matching one arrives; `none`
models blocking forever on an exhausted stream.  The dropped prefix is
consumed — it is not delivered to anyone else. -/
def readUntilReply : List RpcMessage → Nat → Option (RpcMessage × List RpcMessage)
  | [], _ => none
  | m :: ms, rid =>
    if m.id = some rid then some (m, ms) else readUntilReply ms rid

/-- What the caller gets from its matched frame: the error payload raises
(`ProtocolError`), otherwise `msg.get("result")`. -/
def replyOutcome (m : RpcMessage) : ReqOutcome :=
  if m.hasError then .protocolFailure m.errorPayload else .ok m.result

/-- Sequential `request()` calls on one session (ids are allocated by the
monotone counter; each call scans the stream from where the previous left
off).  A call that never finds its reply blocks the loop, so it and every
later call yield `none`. -/
def runRequests (stream : List RpcMessage) : List Nat → List (Option ReqOutcome)
  | [] => []
  | rid :: rest =>
    match readUntilReply stream rid with
    | some (m, stream2) => some (replyOutcome m) :: runRequests stream2 rest
    | none => (rid :: rest).map fun _ => none

/-! ## Concrete environments used by witnesses and counterexamples -/

/-- A workspace with a single Python file defining `b`, a silent backend, a
zero encoder and the identity in place of the SHA-256 digest. -/
def envDemo : CtxEnv :=
  { files := [("m.py", "def b():")],
    lspSymbols := fun _ => [],
    lspReferences := fun _ _ => [],
    countTokens := fun _ => 0,
    hashFn := fun s => s }

/-- A backend reporting six raw references for the symbol at `/a.py:1`, the
first of them inside `/a.py` itself. -/
def envSixRefs : CtxEnv :=
  { files := [],
    lspSymbols := fun _ => [],
    lspReferences := fun f l =>
      if f = "/a.py" && l = 1 then
        [⟨"file:///a.py", 3⟩, ⟨"file:///b1.py", 1⟩, ⟨"file:///b2.py", 2⟩,
         ⟨"file:///b3.py", 3⟩, ⟨"file:///b4.py", 4⟩, ⟨"file:///b5.py", 5⟩]
      else [],
    countTokens := fun _ => 0,
    hashFn := fun s => s }

/-- A backend with five raw references for the same symbol, all usable. -/
def envFiveRefs : CtxEnv :=
  { envSixRefs with
    lspReferences := fun f l =>
      if f = "/a.py" && l = 1 then
        [⟨"file:///b1.py", 1⟩, ⟨"file:///b2.py", 2⟩, ⟨"file:///b3.py", 3⟩,
         ⟨"file:///b4.py", 4⟩, ⟨"file:///b5.py", 5⟩]
      else [] }

def symDemo : ContextManager.SymbolInfo :=
  { name := "s", kind := "Unknown", locFile := "/a.py", locLine := 1,
    documentation := "" }

/-- The first `get_context` run of the cache-key collision scenario. -/
def collisionRunA : Json × TTLCacheState :=
  ContextManager.get_context envDemo (CacheManager.init 512 14) 0 "a:b" "c" 4096

end SerenaMCP

namespace SerenaMCP

open ContextManager

/-! ## Shared lemmas -/

theorem aux_filterMap_length_all_some {α β : Type} (f : α → Option β) :
    ∀ l : List α, (∀ a ∈ l, (f a).isSome) → (l.filterMap f).length = l.length := by
  intro l
  induction l with
  | nil => intro _; rfl
  | cons a rest ih =>
    intro h
    have ha := h a (by simp)
    rcases hfa : f a with _ | b
    · rw [hfa] at ha; simp at ha
    · simp only [List.filterMap_cons, hfa, List.length_cons]
      rw [ih fun x hx => h x (by simp [hx])]

theorem aux_readUntilReply_skips (rid : Nat) (m : RpcMessage) (rest : List RpcMessage) :
    ∀ noise : List RpcMessage, (∀ x ∈ noise, x.id ≠ some rid) → m.id = some rid →
    readUntilReply (noise ++ m :: rest) rid = some (m, rest) := by
  intro noise
  induction noise with
  | nil => intro _ hm; simp [readUntilReply, hm]
  | cons x xs ih =>
    intro h hm
    have hx : x.id ≠ some rid := h x (by simp)
    have hstep : readUntilReply (x :: (xs ++ m :: rest)) rid =
        readUntilReply (xs ++ m :: rest) rid := by
      simp [readUntilReply, hx]
    rw [List.cons_append, hstep]
    exact ih (fun y hy => h y (by simp [hy])) hm

/-! ## C3: apply_edit -/

theorem aux_applyOneEdit_spec (acc : List String × ℕ) (e : Edit) :
    applyOneEdit acc e =
      if editTakesEffect e acc.1 then
        (if e.type = "replace" then (acc.1.set e.line.toNat e.text, acc.2 + 1)
         else if e.type = "insert" then (acc.1.insertIdx e.line.toNat e.text, acc.2 + 1)
         else (acc.1.eraseIdx e.line.toNat, acc.2 + 1))
      else acc := by
  unfold applyOneEdit editTakesEffect
  by_cases h1 : e.type = "replace"
  · by_cases h2 : 0 ≤ e.line ∧ e.line < (acc.1.length : Int) <;> simp [h1, h2]
  · by_cases h3 : e.type = "insert"
    · by_cases h4 : 0 ≤ e.line ∧ e.line ≤ (acc.1.length : Int) <;> simp [h1, h3, h4]
    · by_cases h5 : e.type = "delete"
      · by_cases h6 : 0 ≤ e.line ∧ e.line < (acc.1.length : Int) <;> simp [h1, h3, h5, h6]
      · simp [h1, h3, h5]

/-- C3: `apply_edit` processes the edits in descending line order; the loop
body leaves the file and the counter untouched on every edit that is out of
range (or of unknown type), and increments the counter exactly when an edit
takes effect; on the 3-line file `a b c`, replacing line 1 with `B` gives
`a B c` and `edits_applied = 1`, while a replace at line 10 leaves the lines
unchanged with `edits_applied = 0`. -/
theorem C3_apply_edit :
    (∀ (lines : List String) (edits : List Edit),
      apply_edit_lines lines edits = (sortEditsDesc edits).foldl applyOneEdit (lines, 0)) ∧
    (∀ (acc : List String × Nat) (e : Edit),
      editTakesEffect e acc.1 = false → applyOneEdit acc e = acc) ∧
    (∀ (acc : List String × Nat) (e : Edit),
      (applyOneEdit acc e).2 = acc.2 + (if editTakesEffect e acc.1 then 1 else 0)) ∧
    apply_edit_lines ["a", "b", "c"] [⟨"replace", 1, "B"⟩] = (["a", "B", "c"], 1) ∧
    apply_edit_lines ["a", "b", "c"] [⟨"replace", 10, ""⟩] = (["a", "b", "c"], 0) ∧
    apply_edit { envDemo with files := [("f.txt", "a\nb\nc")] } "f.txt"
      [⟨"replace", 1, "B"⟩] = (true, 1, some "a\nB\nc") ∧
    apply_edit { envDemo with files := [("f.txt", "a\nb\nc")] } "f.txt"
      [⟨"replace", 10, ""⟩] = (true, 0, some "a\nb\nc") := by
  refine ⟨fun _ _ => rfl, ?_, ?_, by decide, by decide, by decide, by decide⟩
  · intro acc e h
    rw [aux_applyOneEdit_spec, h]
    simp
  · intro acc e
    rw [aux_applyOneEdit_spec]
    by_cases h : editTakesEffect e acc.1 = true
    · simp only [h, if_true]
      split_ifs <;> rfl
    · simp only [Bool.not_eq_true] at h
      simp [h]

/-- C3 witness: the skip clause applied to the out-of-range replace at line
10 of the 3-line file. -/
theorem C3_apply_edit_witness :
    applyOneEdit (["a", "b", "c"], 0) ⟨"replace", 10, ""⟩ = (["a", "b", "c"], 0) :=
  C3_apply_edit.2.1 (["a", "b", "c"], 0) ⟨"replace", 10, ""⟩ (by decide)

/-! ## C5: reply correlation -/

/-- C5 counterexample: with replies delivered in the order `id 2, id 1` to
sequential requests `1, 2`, caller 1 receives its own reply (`"a"`), but the
reply for caller 2 has been consumed and dropped by caller 1's read loop, so
caller 2 blocks forever (`none`) instead of receiving `"b"`. -/
theorem C5_counterexample :
    runRequests
      [{ id := some 2, hasError := false, result := .str "b", errorPayload := .null },
       { id := some 1, hasError := false, result := .str "a", errorPayload := .null }]
      [1, 2] = [some (.ok (.str "a")), none] ∧
    runRequests
      [{ id := some 2, hasError := false, result := .str "b", errorPayload := .null },
       { id := some 1, hasError := false, result := .str "a", errorPayload := .null }]
      [1, 2] ≠ [some (.ok (.str "a")), some (.ok (.str "b"))] := by decide

/-- C5 (amended): for a single in-flight request — the only situation the
blocking read loop allows — every frame with a non-matching id arriving ahead
of the reply is skipped (and dropped), and the caller receives exactly the
outcome of the first frame bearing its own request id, regardless of the
order of the preceding frames. -/
theorem C5_reply_correlation (noise rest : List RpcMessage) (m : RpcMessage)
    (rid : Nat) (hnoise : ∀ x ∈ noise, x.id ≠ some rid) (hm : m.id = some rid) :
    readUntilReply (noise ++ m :: rest) rid = some (m, rest) ∧
    runRequests (noise ++ m :: rest) [rid] = [some (replyOutcome m)] := by
  have h := aux_readUntilReply_skips rid m rest noise hnoise hm
  exact ⟨h, by simp [runRequests, h]⟩

/-- C5 witness: a notification and a stale reply ahead of the matching reply
are skipped. -/
theorem C5_reply_correlation_witness :
    readUntilReply
      [{ id := none, hasError := false, result := .null, errorPayload := .null },
       { id := some 7, hasError := false, result := .str "stale", errorPayload := .null },
       { id := some 3, hasError := false, result := .str "mine", errorPayload := .null }]
      3 =
      some ({ id := some 3, hasError := false, result := .str "mine", errorPayload := .null }, []) :=
  (C5_reply_correlation
    [{ id := none, hasError := false, result := .null, errorPayload := .null },
     { id := some 7, hasError := false, result := .str "stale", errorPayload := .null }]
    [] { id := some 3, hasError := false, result := .str "mine", errorPayload := .null }
    3 (by decide) (by decide)).1

/-! ## C6: query parsing -/

theorem aux_takeWhile_stop (sep : Char) :
    ∀ cs ds : List Char, (∀ c ∈ cs, c ≠ sep) →
    (cs ++ sep :: ds).takeWhile (fun c => c ≠ sep) = cs := by
  intro cs
  induction cs with
  | nil => intro ds _; simp [List.takeWhile]
  | cons c rest ih =>
    intro ds h
    have hc : c ≠ sep := h c (by simp)
    simp only [List.cons_append, List.takeWhile_cons, decide_eq_true_eq]
    rw [if_pos hc, ih ds fun x hx => h x (by simp [hx])]

theorem aux_dropWhile_stop (sep : Char) :
    ∀ cs ds : List Char, (∀ c ∈ cs, c ≠ sep) →
    (cs ++ sep :: ds).dropWhile (fun c => c ≠ sep) = sep :: ds := by
  intro cs
  induction cs with
  | nil => intro ds _; simp [List.dropWhile]
  | cons c rest ih =>
    intro ds h
    have hc : c ≠ sep := h c (by simp)
    simp only [List.cons_append, List.dropWhile_cons, decide_eq_true_eq]
    rw [if_pos hc]
    exact ih ds fun x hx => h x (by simp [hx])

theorem aux_splitChar_no_sep (sep : Char) :
    ∀ cs : List Char, (∀ c ∈ cs, c ≠ sep) → splitChar sep cs = [cs] := by
  intro cs
  induction cs with
  | nil => intro _; rfl
  | cons c rest ih =>
    intro h
    have hc : c ≠ sep := h c (by simp)
    simp only [splitChar, if_neg hc, ih fun x hx => h x (by simp [hx])]

theorem aux_splitChar_append (sep : Char) :
    ∀ a b : List Char, (∀ c ∈ a, c ≠ sep) →
    splitChar sep (a ++ sep :: b) = a :: splitChar sep b := by
  intro a
  induction a with
  | nil => intro b _; simp [splitChar]
  | cons c rest ih =>
    intro b h
    have hc : c ≠ sep := h c (by simp)
    have hrest := ih b fun x hx => h x (by simp [hx])
    simp only [List.cons_append, splitChar, if_neg hc, List.append_eq, hrest]

/-- C6: query parsing — a dot-separated pair with no colon parses to an
unresolved file and the part after the dot as the symbol; `file:symbol` whose
file part exists verbatim parses to that file and the part after the first
colon; a bare token with neither separator parses to an unresolved file and
itself. -/
theorem C6_parse_query :
    (∀ (env : CtxEnv) (a b : List Char),
      (∀ c ∈ a, c ≠ ':') → (∀ c ∈ b, c ≠ ':') →
      (∀ c ∈ a, c ≠ '.') → (∀ c ∈ b, c ≠ '.') →
      parse_query env (String.mk (a ++ '.' :: b)) = (none, String.mk b)) ∧
    (∀ (env : CtxEnv) (f sym : String),
      (∀ c ∈ f.toList, c ≠ ':') → pathExists env f = true →
      parse_query env (f ++ ":" ++ sym) = (some f, sym)) ∧
    (∀ (env : CtxEnv) (q : String),
      hasChar q ':' = false → hasChar q '.' = false →
      parse_query env q = (none, q)) := by
  refine ⟨?_, ?_, ?_⟩
  · intro env a b ha hb ha2 hb2
    have hnc : hasChar (String.mk (a ++ '.' :: b)) ':' = false := by
      unfold hasChar
      simp only [String.toList]
      rw [Bool.eq_false_iff]
      intro hmem
      have hm : ':' ∈ a ++ '.' :: b := List.elem_iff.mp hmem
      rcases List.mem_append.mp hm with h | h
      · exact absurd rfl (ha ':' h)
      · rcases List.mem_cons.mp h with h | h
        · exact absurd h (by decide)
        · exact absurd rfl (hb ':' h)
    have hd : hasChar (String.mk (a ++ '.' :: b)) '.' = true := by
      unfold hasChar
      simp only [String.toList]
      exact List.elem_iff.mpr (by simp)
    unfold parse_query
    rw [hnc, hd]
    simp only [Bool.false_eq_true, if_false, if_true, String.toList]
    rw [aux_splitChar_append '.' a b ha2, aux_splitChar_no_sep '.' b hb2]
    rfl
  · intro env f sym hf hex
    have hdata : (f ++ ":" ++ sym).toList = f.toList ++ ':' :: sym.toList := by
      simp [String.toList, String.data_append]
    have hchar : hasChar (f ++ ":" ++ sym) ':' = true := by
      unfold hasChar
      rw [hdata]
      exact List.elem_iff.mpr (by simp)
    unfold parse_query
    rw [hchar]
    simp only [if_true, hdata]
    rw [aux_takeWhile_stop ':' f.toList sym.toList hf,
        aux_dropWhile_stop ':' f.toList sym.toList hf]
    simp only [List.drop_succ_cons, List.drop_zero]
    have hmkf : String.mk f.toList = f := rfl
    rw [hmkf, hex]
    rfl
  · intro env q h1 h2
    unfold parse_query
    rw [h1, h2]
    simp

/-- C6 witness: the three example queries of the specification, against a
workspace containing `/abs/path/user.py`. -/
theorem C6_parse_query_witness :
    parse_query { envDemo with files := [("/abs/path/user.py", "")] }
        "UserService.authenticate" = (none, "authenticate") ∧
    parse_query { envDemo with files := [("/abs/path/user.py", "")] }
        "/abs/path/user.py:UserService" = (some "/abs/path/user.py", "UserService") ∧
    parse_query { envDemo with files := [("/abs/path/user.py", "")] }
        "foo" = (none, "foo") :=
  ⟨C6_parse_query.1 _ "UserService".toList "authenticate".toList
      (by decide) (by decide) (by decide) (by decide),
   C6_parse_query.2.1 _ "/abs/path/user.py" "UserService" (by decide) (by decide),
   C6_parse_query.2.2 _ "foo" (by decide) (by decide)⟩

/-! ## C7: unmapped extensions -/

/-- C7: a file whose (lower-cased) suffix is not one of the eight mapped
extensions resolves to language `"unknown"`; no session is started (the
registry state is returned unchanged), and definition / references / symbols
answer `none` / `[]` / `[]` rather than an error. -/
theorem C7_unmapped_extension (backend : LSPClient.LspBackend)
    (st : LSPClient.ClientState) (path : String) (pos : Nat × Nat)
    (hext : strToLower (LSPClient.pathSuffix path) ∉
      [".py", ".ts", ".tsx", ".js", ".jsx", ".sh", ".bash", ".go"])
    (hunk : st.servers.contains "unknown" = false) :
    LSPClient.get_language_from_file path = "unknown" ∧
    LSPClient.get_definition backend st path pos = (st, none) ∧
    LSPClient.get_references backend st path pos = (st, []) ∧
    LSPClient.get_symbols backend st path = (st, []) := by
  have hfind : LSPClient.language_map.find?
      (fun e => e.1 = strToLower (LSPClient.pathSuffix path)) = none := by
    rw [List.find?_eq_none]
    intro e he
    simp only [LSPClient.language_map, List.mem_cons, List.not_mem_nil, or_false] at he
    simp only [List.mem_cons, List.not_mem_nil, or_false, not_or] at hext
    rcases he with h | h | h | h | h | h | h | h <;>
      (subst h; simp only [decide_eq_true_eq]; intro hb; exact absurd hb.symm (by tauto))
  have hlang : LSPClient.get_language_from_file path = "unknown" := by
    unfold LSPClient.get_language_from_file
    rw [hfind]
    rfl
  have hstart : LSPClient.start_server "unknown" st = st := rfl
  have hnot : "unknown" ∉ st.servers := fun hm => by
    simp at hunk
    exact hunk hm
  refine ⟨hlang, ?_, ?_, ?_⟩
  · unfold LSPClient.get_definition
    rw [hlang]
    simp [hstart, hunk, hnot]
  · unfold LSPClient.get_references
    rw [hlang]
    simp [hstart, hunk, hnot]
  · unfold LSPClient.get_symbols
    rw [hlang]
    simp [hstart, hunk, hnot]

/-- C7 witness: a `.txt` file against an empty registry and a backend that
would answer if asked. -/
theorem C7_unmapped_extension_witness :
    LSPClient.get_language_from_file "notes.txt" = "unknown" ∧
    LSPClient.get_definition ⟨fun _ _ => some .null, fun _ _ => [⟨"file:///x.py", 0⟩],
        fun _ => [⟨"x", 5, 0, ""⟩]⟩ ⟨[]⟩ "notes.txt" (0, 0) = (⟨[]⟩, none) ∧
    LSPClient.get_references ⟨fun _ _ => some .null, fun _ _ => [⟨"file:///x.py", 0⟩],
        fun _ => [⟨"x", 5, 0, ""⟩]⟩ ⟨[]⟩ "notes.txt" (0, 0) = (⟨[]⟩, []) ∧
    LSPClient.get_symbols ⟨fun _ _ => some .null, fun _ _ => [⟨"file:///x.py", 0⟩],
        fun _ => [⟨"x", 5, 0, ""⟩]⟩ ⟨[]⟩ "notes.txt" = (⟨[]⟩, []) := by
  have h := C7_unmapped_extension
    ⟨fun _ _ => some .null, fun _ _ => [⟨"file:///x.py", 0⟩], fun _ => [⟨"x", 5, 0, ""⟩]⟩
    ⟨[]⟩ "notes.txt" (0, 0) (by decide) (by decide)
  exact ⟨h.1, h.2.1, h.2.2.1, h.2.2.2⟩

/-! ## C1: the reference cap of `_extract_references` -/

theorem aux_isEmpty_eq_empty (s : String) (h : s.isEmpty = true) : s = "" :=
  (String.isEmpty_iff s).mp h

/-- C1 counterexample: a symbol whose backend query returns six raw
references, the first of which lies in the symbol's own defining file.  The
source slices `refs[:5]` before filtering out same-file references, so only
four records are produced, not the five the claim requires. -/
theorem C1_counterexample :
    5 < (envSixRefs.lspReferences symDemo.locFile symDemo.locLine).length ∧
    (extract_references envSixRefs [symDemo]).length = 4 ∧
    ¬(extract_references envSixRefs [symDemo]).length = 5 := by decide

/-- C1 (amended): per symbol the aggregator produces at most 5 reference
records, none with an empty file or the symbol's own defining file; it
produces exactly 5 only when each of the first 5 raw references maps to a
usable file — the cap is applied to the raw list before the own-file filter,
so same-file references among the first five reduce the count below five. -/
theorem C1_reference_cap (env : CtxEnv) (s : SymbolInfo) :
    (refs_for_symbol env s).length ≤ 5 ∧
    (∀ r ∈ refs_for_symbol env s, r.file ≠ "" ∧ r.file ≠ s.locFile) ∧
    (∀ symbols : List SymbolInfo,
      extract_references env symbols = symbols.flatMap (refs_for_symbol env)) ∧
    (5 ≤ (env.lspReferences s.locFile s.locLine).length →
      (∀ r ∈ (env.lspReferences s.locFile s.locLine).take 5,
        strReplace r.uri "file://" "" ≠ "" ∧ strReplace r.uri "file://" "" ≠ s.locFile) →
      (refs_for_symbol env s).length = 5) := by
  refine ⟨?_, ?_, fun _ => rfl, ?_⟩
  · unfold refs_for_symbol
    exact le_trans (List.length_filterMap_le _ _) (List.length_take_le _ _)
  · intro r hr
    unfold refs_for_symbol at hr
    rcases List.mem_filterMap.mp hr with ⟨a, _, hfa⟩
    by_cases hb : (!(strReplace a.uri "file://" "").isEmpty &&
        decide (strReplace a.uri "file://" "" ≠ s.locFile)) = true
    · rw [if_pos hb] at hfa
      simp only [Bool.and_eq_true, Bool.not_eq_true', decide_eq_true_eq] at hb
      cases hfa
      constructor
      · show strReplace a.uri "file://" "" ≠ ""
        intro hemp
        rw [hemp] at hb
        exact absurd hb.1 (by decide)
      · exact hb.2
    · rw [if_neg hb] at hfa
      cases hfa
  · intro hlen hall
    unfold refs_for_symbol
    rw [aux_filterMap_length_all_some]
    · rw [List.length_take]
      omega
    · intro a ha
      have h := hall a ha
      have hb : (!(strReplace a.uri "file://" "").isEmpty &&
          decide (strReplace a.uri "file://" "" ≠ s.locFile)) = true := by
        simp only [Bool.and_eq_true, Bool.not_eq_true', decide_eq_true_eq]
        refine ⟨?_, h.2⟩
        rw [Bool.eq_false_iff]
        intro hemp
        exact h.1 (aux_isEmpty_eq_empty _ hemp)
      rw [if_pos hb]
      rfl

/-- C1 witness: five raw references, all usable, give exactly five records. -/
theorem C1_reference_cap_witness :
    (refs_for_symbol envFiveRefs symDemo).length = 5 :=
  (C1_reference_cap envFiveRefs symDemo).2.2.2 (by decide) (by decide)

/-! ## C8: non-negative token savings -/

/-- C8: whenever `get_context` computes a payload (a file was resolved), its
`tokens_saved` equals the estimated raw-inclusion token cost minus the token
cost of the stringified payload, floored at zero — hence never negative; the
empty result of an unresolved query reports zero; and on a cache miss
`get_context` returns exactly the computed payload, caching it. -/
theorem C8_tokens_saved :
    (∀ (env : CtxEnv) (query scope : String) (p : Payload),
      compute_context env query scope = some p →
      0 ≤ p.tokensSaved ∧
      p.tokensSaved = max 0
        ((estimate_raw_tokens env ((resolve_file env query).1.getD "") scope : Int) -
          (count_tokens env p.symbols p.dependencies p.references : Int))) ∧
    empty_result.tokensSaved = 0 ∧
    (∀ (env : CtxEnv) (st : TTLCacheState) (now : Nat) (query scope : String)
      (maxTokens : Nat) (p : Payload),
      CacheManager.get st now (generate_cache_key env query scope maxTokens) = none →
      compute_context env query scope = some p →
      get_context env st now query scope maxTokens =
        (payloadToJson p,
         (CacheManager.set st now (generate_cache_key env query scope maxTokens)
           (payloadToJson p)).2)) := by
  refine ⟨?_, rfl, ?_⟩
  · intro env query scope p hp
    unfold compute_context at hp
    rcases hres : resolve_file env query with ⟨fOpt, sym⟩
    rw [hres] at hp
    cases fOpt with
    | none => cases hp
    | some f =>
      cases hp
      exact ⟨le_max_left _ _, rfl⟩
  · intro env st now query scope maxTokens p hmiss hp
    unfold get_context
    simp only [hmiss, hp]

/-- C8 witness: in the demo workspace the query `b` with scope `file`
resolves, and the computed payload reports a zero saving (the encoder of the
demo environment counts zero), which the miss path caches and returns. -/
theorem C8_tokens_saved_witness :
    (0 : Int) ≤
      (Payload.mk [⟨"b", "Unknown", "m.py", 1, "Symbol b in m.py"⟩] [] [] 0).tokensSaved ∧
    get_context envDemo (CacheManager.init 512 14) 0 "b" "file" 4096 =
      (payloadToJson
        { symbols := [⟨"b", "Unknown", "m.py", 1, "Symbol b in m.py"⟩],
          dependencies := [], references := [], tokensSaved := 0 },
       (CacheManager.set (CacheManager.init 512 14) 0
         (generate_cache_key envDemo "b" "file" 4096)
         (payloadToJson
           { symbols := [⟨"b", "Unknown", "m.py", 1, "Symbol b in m.py"⟩],
             dependencies := [], references := [], tokensSaved := 0 })).2) :=
  ⟨(C8_tokens_saved.1 envDemo "b" "file"
      (Payload.mk [⟨"b", "Unknown", "m.py", 1, "Symbol b in m.py"⟩] [] [] 0)
      (by decide)).1,
   (C8_tokens_saved.2.2 envDemo (CacheManager.init 512 14) 0 "b" "file" 4096
     { symbols := [⟨"b", "Unknown", "m.py", 1, "Symbol b in m.py"⟩],
       dependencies := [], references := [], tokensSaved := 0 }
     (by decide) (by decide))⟩

/-! ## C9: cache-key collisions -/

set_option maxRecDepth 100000 in
/-- C9: the fingerprint hashes the colon-joined `query:scope:max_tokens`, so
the distinct requests `("a:b", "c")` and `("a", "b:c")` (same budget) share
one key regardless of the hash function; after serving the first, the demo
aggregator answers the second from the cache with the first request's
payload, which differs from what the second request would have computed on an
empty cache. -/
theorem C9_cache_key_collision :
    (∀ (env : CtxEnv) (m : Nat),
      generate_cache_key env "a:b" "c" m = generate_cache_key env "a" "b:c" m) ∧
    ("a:b", "c") ≠ ("a", "b:c") ∧
    get_context envDemo collisionRunA.2 0 "a" "b:c" 4096 =
      (collisionRunA.1, collisionRunA.2) ∧
    (get_context envDemo (CacheManager.init 512 14) 0 "a" "b:c" 4096).1 ≠
      collisionRunA.1 := by
  refine ⟨?_, by decide, by decide, by decide⟩
  intro env m
  unfold generate_cache_key
  have harg : "a:b" ++ ":" ++ "c" ++ ":" ++ toString m =
      "a" ++ ":" ++ "b:c" ++ ":" ++ toString m := by
    have : ("a:b" ++ ":" ++ "c" : String) = "a" ++ ":" ++ "b:c" := by decide
    rw [show ("a:b" ++ ":" ++ "c" ++ ":" ++ toString m : String) =
          ("a:b" ++ ":" ++ "c") ++ ":" ++ toString m from rfl,
        show ("a" ++ ":" ++ "b:c" ++ ":" ++ toString m : String) =
          ("a" ++ ":" ++ "b:c") ++ ":" ++ toString m from rfl, this]
  rw [harg]

/-! ## C10: find_symbol -/

theorem aux_find_symbol_file_exists (env : CtxEnv) (name f : String)
    (h : find_symbol_file env name = some f) : pathExists env f = true := by
  unfold find_symbol_file at h
  rcases hf : env.files.find?
      (fun e => strEndsWith e.1 ".py" && defPatternMatches name e.2) with _ | e
  · rw [hf] at h
    cases h
  · rw [hf] at h
    cases h
    have hmem := List.mem_of_find?_eq_some hf
    unfold pathExists
    rw [List.any_eq_true]
    exact ⟨e, hmem, by simp⟩

/-- C10: whenever `find_symbol` reports `found = true` (a file containing the
symbol was located by the workspace scan), the locations list is non-empty —
the `"Unknown"`-kind stub is synthesized when no backend symbol passes the
name filter — and the message reports exactly the length of the locations
list. -/
theorem C10_find_symbol (env : CtxEnv) (name f : String)
    (h : find_symbol_file env name = some f) :
    (find_symbol env name).found = true ∧
    (find_symbol env name).locations ≠ [] ∧
    (find_symbol env name).message =
      "Found " ++ toString (find_symbol env name).locations.length ++
        " occurrence(s) of \x27" ++ name ++ "\x27" := by
  have hex := aux_find_symbol_file_exists env name f h
  have hsy : extract_symbols env f name "function" ≠ [] := by
    unfold extract_symbols
    intro hnil
    simp only [reduceIte] at hnil
    split at hnil
    · cases hnil
    · rename_i hcond
      exact hcond (by rw [hnil]; simp [hex])
  unfold find_symbol
  rw [h]
  refine ⟨rfl, ?_, rfl⟩
  simp only [ne_eq, List.map_eq_nil_iff]
  exact hsy

/-- C10 witness: the demo workspace locates `b` in `m.py`; no backend symbol
matches, so the stub keeps the locations non-empty and the message counts
one occurrence. -/
theorem C10_find_symbol_witness :
    (find_symbol envDemo "b").found = true ∧
    (find_symbol envDemo "b").locations ≠ [] ∧
    (find_symbol envDemo "b").message =
      "Found " ++ toString (find_symbol envDemo "b").locations.length ++
        " occurrence(s) of \x27b\x27" :=
  C10_find_symbol envDemo "b" "m.py" (by decide)

/-! ## Cache lemmas for C2 and C4 -/

theorem aux_entriesSize_cons (e : String × String × Nat)
    (es : List (String × String × Nat)) :
    entriesSize (e :: es) = entrySize e.2.1 + entriesSize es := by
  simp [entriesSize]

theorem aux_entriesSize_append_single (es : List (String × String × Nat))
    (x : String × String × Nat) :
    entriesSize (es ++ [x]) = entriesSize es + entrySize x.2.1 := by
  simp [entriesSize]

theorem aux_entriesSize_filter_le (p : String × String × Nat → Bool) :
    ∀ es, entriesSize (es.filter p) ≤ entriesSize es := by
  intro es
  induction es with
  | nil => exact le_refl _
  | cons e rest ih =>
    by_cases hp : p e = true
    · rw [List.filter_cons_of_pos hp, aux_entriesSize_cons, aux_entriesSize_cons]
      omega
    · rw [List.filter_cons_of_neg (by simpa using hp), aux_entriesSize_cons]
      omega

theorem aux_evictWhile_sublist (m s : Nat) :
    ∀ es, (evictWhile es m s).Sublist es := by
  intro es
  induction es with
  | nil => exact List.Sublist.refl _
  | cons e rest ih =>
    unfold evictWhile
    split_ifs with hcond
    · exact ih.trans (List.sublist_cons_self _ _)
    · exact List.Sublist.refl _

theorem aux_evictWhile_spec (m s : Nat) :
    ∀ es, entriesSize (evictWhile es m s) + s ≤ m ∨ evictWhile es m s = [] := by
  intro es
  induction es with
  | nil => exact Or.inr rfl
  | cons e rest ih =>
    unfold evictWhile
    split_ifs with hcond
    · exact ih
    · exact Or.inl (by omega)

theorem aux_find?_size (k : String) :
    ∀ es : List (String × String × Nat), (es.map fun e => e.1).Nodup →
    ∀ e, es.find? (fun x => x.1 = k) = some e →
    entriesSize (es.filter fun x => x.1 ≠ k) + entrySize e.2.1 = entriesSize es := by
  intro es
  induction es with
  | nil => intro _ e he; cases he
  | cons a rest ih =>
    intro hnd e he
    by_cases ha : a.1 = k
    · have hfa : (a :: rest).find? (fun x => decide (x.1 = k)) = some a := by
        simp [List.find?, ha]
      rw [hfa] at he
      cases he
      have hrest : ∀ x ∈ rest, x.1 ≠ k := by
        intro x hx hxk
        rw [List.map_cons] at hnd
        apply (List.nodup_cons.mp hnd).1
        refine List.mem_map.mpr ⟨x, hx, ?_⟩
        show x.1 = a.1
        rw [hxk, ha]
      rw [List.filter_cons_of_neg (by simp [ha]),
          List.filter_eq_self.mpr (by intro x hx; simpa using hrest x hx),
          aux_entriesSize_cons]
      omega
    · have hfa : (a :: rest).find? (fun x => decide (x.1 = k)) =
          rest.find? (fun x => decide (x.1 = k)) := by
        simp [List.find?, ha]
      rw [hfa] at he
      rw [List.filter_cons_of_pos (by simpa using ha), aux_entriesSize_cons,
          aux_entriesSize_cons]
      have := ih (List.nodup_cons.mp hnd).2 e he
      omega

theorem aux_find?_filter_append (k x : String) (t : Nat) :
    ∀ es : List (String × String × Nat),
    ((es.filter fun e => e.1 ≠ k) ++ [(k, x, t)]).find? (fun e => e.1 = k) =
      some (k, x, t) := by
  intro es
  induction es with
  | nil => simp [List.find?]
  | cons a rest ih =>
    by_cases ha : a.1 = k
    · rw [List.filter_cons_of_neg (by simp [ha])]
      exact ih
    · rw [List.filter_cons_of_pos (by simpa using ha), List.cons_append]
      have hstep : ((a :: ((rest.filter fun e => e.1 ≠ k) ++ [(k, x, t)])).find?
          (fun e => decide (e.1 = k))) =
          (((rest.filter fun e => e.1 ≠ k) ++ [(k, x, t)]).find?
            (fun e => decide (e.1 = k))) := by
        simp [List.find?, ha]
      rw [hstep]
      exact ih

/-- The case analysis of `CacheManager.set`: either the serialized value is
larger than the whole capacity and the write is rejected after the expiry
sweep, or the value is stored at the tail of the link order over some
remaining entry list (the expired entries, further evicted if the new entry
needed room). -/
theorem aux_set_cases (st : TTLCacheState) (now : Nat) (k : String) (v : Json) :
    (st.maxsize < entrySize (dumps v) ∧
      CacheManager.set st now k v = (false, cacheExpire st now)) ∨
    (entrySize (dumps v) ≤ st.maxsize ∧ ∃ es,
      ((es = (cacheExpire st now).entries ∧ ∃ e,
          (cacheExpire st now).entries.find? (fun x => x.1 = k) = some e ∧
          entrySize (dumps v) ≤ entrySize e.2.1) ∨
        es = evictWhile (cacheExpire st now).entries st.maxsize (entrySize (dumps v))) ∧
      (CacheManager.set st now k v).2 =
        { maxsize := st.maxsize, ttl := st.ttl,
          entries := (es.filter fun e => e.1 ≠ k) ++ [(k, dumps v, now + st.ttl)] }) := by
  simp only [CacheManager.set, cacheSetItem]
  by_cases hover : (cacheExpire st now).maxsize < entrySize (dumps v)
  · rw [if_pos hover]
    exact Or.inl ⟨hover, rfl⟩
  · rw [if_neg hover]
    refine Or.inr ⟨not_lt.mp hover, ?_⟩
    rcases hfind : (cacheExpire st now).entries.find? (fun x => x.1 = k) with _ | e
    · refine ⟨evictWhile (cacheExpire st now).entries st.maxsize (entrySize (dumps v)),
        Or.inr rfl, ?_⟩
      simp only [hfind]
      simp [cacheExpire]
    · by_cases hlt : entrySize e.2.1 < entrySize (dumps v)
      · refine ⟨evictWhile (cacheExpire st now).entries st.maxsize (entrySize (dumps v)),
          Or.inr rfl, ?_⟩
        simp only [hfind]
        simp [cacheExpire, hlt]
      · refine ⟨(cacheExpire st now).entries, Or.inl ⟨rfl, e, hfind, not_lt.mp hlt⟩, ?_⟩
        simp only [hfind]
        simp [cacheExpire, hlt]

/-! ## C2: oversized entries and the capacity invariant -/

/-- C2 counterexample: with the capacity configured to zero megabytes, the
two-byte serialization of the empty payload exceeds the aggregate capacity;
`set` does not store it — it returns `False` and leaves the cache without the
entry — contradicting the claim that storing such an entry is permitted. -/
theorem C2_counterexample :
    (CacheManager.init 0 14).maxsize < entrySize (dumps (Json.objOf [])) ∧
    CacheManager.set (CacheManager.init 0 14) 0 "kk" (Json.objOf []) =
      (false, CacheManager.init 0 14) ∧
    CacheManager.get
      (CacheManager.set (CacheManager.init 0 14) 0 "kk" (Json.objOf [])).2 0 "kk" =
      none := by decide

/-- C2 (amended): a `set` whose serialized value exceeds the configured
capacity does not raise — it returns `False` and stores nothing, leaving only
the expiry sweep applied; and the aggregate tracked size never exceeds the
configured capacity (which `set` preserves), assuming distinct keys. -/
theorem C2_cache_capacity (st : TTLCacheState) (now : Nat) (k : String) (v : Json) :
    (st.maxsize < entrySize (dumps v) →
      CacheManager.set st now k v = (false, cacheExpire st now)) ∧
    ((st.entries.map fun e => e.1).Nodup → st.currsize ≤ st.maxsize →
      (CacheManager.set st now k v).2.currsize ≤ st.maxsize) ∧
    (CacheManager.set st now k v).2.maxsize = st.maxsize ∧
    ((st.entries.map fun e => e.1).Nodup →
      ((CacheManager.set st now k v).2.entries.map fun e => e.1).Nodup) := by
  have hexpnd : ((st.entries.map fun e => e.1)).Nodup →
      (((cacheExpire st now).entries.map fun e => e.1)).Nodup := fun hnd =>
    hnd.sublist ((List.filter_sublist st.entries).map _)
  have hexple : entriesSize (cacheExpire st now).entries ≤ entriesSize st.entries :=
    aux_entriesSize_filter_le _ st.entries
  rcases aux_set_cases st now k v with ⟨hover, heq⟩ | ⟨hle, es, hes, heq⟩
  · refine ⟨fun _ => heq, ?_, ?_, ?_⟩
    · intro _ hcur
      rw [heq]
      exact le_trans hexple hcur
    · rw [heq]; rfl
    · intro hnd
      rw [heq]
      exact hexpnd hnd
  · have hsub : es.Sublist st.entries := by
      rcases hes with ⟨hese, _⟩ | hese
      · rw [hese]; exact List.filter_sublist _
      · rw [hese]
        exact (aux_evictWhile_sublist _ _ _).trans (List.filter_sublist _)
    refine ⟨fun hov => absurd hov (not_lt.mpr hle), ?_, ?_, ?_⟩
    · intro hnd hcur
      rw [heq]
      show entriesSize ((es.filter fun e => e.1 ≠ k) ++ [(k, dumps v, now + st.ttl)]) ≤
        st.maxsize
      rw [aux_entriesSize_append_single,
        show ((k, dumps v, now + st.ttl) : String × String × Nat).2.1 = dumps v from rfl]
      have hc : st.currsize = entriesSize st.entries := rfl
      rw [hc] at hcur
      rcases hes with ⟨hese, e, hfind, hsz⟩ | hese
      · subst hese
        have hkey := aux_find?_size k (cacheExpire st now).entries (hexpnd hnd) e hfind
        have hfle := aux_entriesSize_filter_le
          (fun e => decide (e.1 ≠ k)) (cacheExpire st now).entries
        omega
      · subst hese
        rcases aux_evictWhile_spec st.maxsize (entrySize (dumps v))
            (cacheExpire st now).entries with hok | hnil
        · have hfle := aux_entriesSize_filter_le (fun e => decide (e.1 ≠ k))
            (evictWhile (cacheExpire st now).entries st.maxsize (entrySize (dumps v)))
          omega
        · rw [hnil]
          simpa [entriesSize] using hle
    · rw [heq]
    · intro hnd
      rw [heq]
      show ((((es.filter fun e => e.1 ≠ k)) ++ [(k, dumps v, now + st.ttl)]).map
        fun e => e.1).Nodup
      rw [List.map_append, List.nodup_append]
      refine ⟨(hnd.sublist (hsub.map _)).sublist ((List.filter_sublist es).map _),
        List.nodup_singleton _, ?_⟩
      intro a ha hb
      rcases List.mem_map.mp ha with ⟨x, hx, hax⟩
      have hxk := (List.mem_filter.mp hx).2
      simp only [List.map_cons, List.map_nil, List.mem_singleton] at hb
      rw [← hax] at hb
      simp [hb] at hxk

/-- C2 witness: the oversized-rejection clause and the capacity invariant at
the zero-capacity cache. -/
theorem C2_cache_capacity_witness :
    CacheManager.set (CacheManager.init 0 14) 5 "k" (Json.objOf []) =
      (false, cacheExpire (CacheManager.init 0 14) 5) ∧
    (CacheManager.set (CacheManager.init 0 14) 5 "k" (Json.objOf [])).2.currsize ≤
      (CacheManager.init 0 14).maxsize :=
  ⟨(C2_cache_capacity (CacheManager.init 0 14) 5 "k" (Json.objOf [])).1 (by decide),
   (C2_cache_capacity (CacheManager.init 0 14) 5 "k" (Json.objOf [])).2.1
     (by decide) (by decide)⟩

/-! ## C4: the cache round trip -/

/-- C4 counterexample: with the capacity configured to zero megabytes, the
empty payload serializes without information loss, yet `set` followed by
`get` returns `None`, not the payload. -/
theorem C4_counterexample :
    loads (dumps (Json.objOf [])) = some (Json.objOf []) ∧
    CacheManager.get
      (CacheManager.set (CacheManager.init 0 14) 0 "kk4" (Json.objOf [])).2 0 "kk4" =
      none := by decide

/-- C4 (amended): `set(k, v)` immediately followed by `get(k)` returns `v`
for every payload that serializes without information loss, provided the
serialized payload fits within the configured aggregate capacity and the
configured TTL is positive. -/
theorem C4_cache_round_trip (st : TTLCacheState) (now : Nat) (k : String) (v : Json)
    (hrt : loads (dumps v) = some v)
    (hsz : entrySize (dumps v) ≤ st.maxsize)
    (httl : 0 < st.ttl) :
    CacheManager.get (CacheManager.set st now k v).2 now k = some v := by
  rcases aux_set_cases st now k v with ⟨hover, _⟩ | ⟨_, es, _, heq⟩
  · omega
  · rw [heq]
    unfold CacheManager.get cacheGetItem
    rw [aux_find?_filter_append]
    simp only
    rw [if_pos (by omega : now < now + st.ttl)]
    show (if (dumps v).isEmpty = true then none else loads (dumps v)) = some v
    have hne : (dumps v).isEmpty = false := by
      rw [Bool.eq_false_iff]
      intro hemp
      rw [aux_isEmpty_eq_empty _ hemp] at hrt
      cases hrt
    rw [hne]
    simp [hrt]

/-- C4 witness: a one-field payload round-trips through a 1 MB, 1-day
cache. -/
theorem C4_cache_round_trip_witness :
    CacheManager.get
      (CacheManager.set (CacheManager.init 1 1) 0 "k" (Json.objOf [("a", .num 1)])).2
      0 "k" = some (Json.objOf [("a", .num 1)]) :=
  C4_cache_round_trip (CacheManager.init 1 1) 0 "k" (Json.objOf [("a", .num 1)])
    (by decide) (by decide) (by decide)

end SerenaMCP

